import Mathlib

/-!
Shallow embedding of src/bin/scripts/extract_cards.py (Debate-Land/tabroom-API).

Python strings are modelled as Lean String (lists of Char); Python str.split(),
str.strip(), str.lower() and str.split(sep) are re-implemented below over
List Char with the same semantics.  The float threshold of flexible_match is
modelled as a rational number: every division the script performs is an exact
division of two small integers, and the comparison against the 0.8 literal
agrees with the rational comparison on all realistic token counts.
Fallible operations (Python exceptions) return Option, with none for a raised
exception.
-/

namespace ExtractCards

/-- Whitespace test used by str.split, str.strip (ASCII whitespace). -/
def isSpace (c : Char) : Bool := c.isWhitespace

/-- str.lower over the character list of a string (basic latin letters). -/
def lowerL (l : List Char) : List Char := l.map Char.toLower

/-- str.strip over a character list: drop whitespace at both ends. -/
def pyStripL (l : List Char) : List Char :=
  ((l.dropWhile isSpace).reverse.dropWhile isSpace).reverse

/-- Python str.strip(). -/
def pyStrip (s : String) : String := String.mk (pyStripL s.data)

/-- Python str.split() (no argument): split on runs of whitespace, no empty
pieces.  The accumulator holds the current in-progress word, reversed. -/
def pyWordsAux (cur : List Char) : List Char → List (List Char)
  | [] => if cur = [] then [] else [cur.reverse]
  | c :: cs =>
    if isSpace c then
      if cur = [] then pyWordsAux [] cs else cur.reverse :: pyWordsAux [] cs
    else pyWordsAux (c :: cur) cs

/-- The whitespace-separated token list of a string (Python s.split()). -/
def pyWords (s : String) : List (List Char) := pyWordsAux [] s.data

/-- Line 81-87: flexible_match(target, text, threshold).  Returns none when
Python raises ZeroDivisionError (target has no tokens); otherwise the boolean
value of matches / len(target_words) >= threshold. -/
def flexible_match (target text : String) (threshold : ℚ) : Option Bool :=
  let target_words := pyWordsAux [] (lowerL target.data)
  let text_words := pyWordsAux [] (lowerL text.data)
  let nMatches := (target_words.filter (fun word => text_words.contains word)).length
  if target_words.length = 0 then none
  else some (decide ((nMatches : ℚ) / (target_words.length : ℚ) ≥ threshold))

/-- The default threshold 0.8 used at every call site of flexible_match. -/
def defaultThreshold : ℚ := 8 / 10

/-- Lines 18-21: class Card(TypedDict) with author, start, end fields
(end is a Lean keyword, rendered end_). -/
structure Card where
  author : String
  start : String
  end_ : String
deriving DecidableEq, Repr

/-- One entry of the JSON list handed to the validator: either a dict with
optional string fields author / start / end (a missing key makes
card.get(field, the empty string) return the empty string), or a non-dict
value.  Dict fields holding non-string JSON values would raise
AttributeError on .strip() in the source and are outside this model; no
claim quantifies over them. -/
inductive RawEntry where
  | obj (author : Option String) (start : Option String) (end_ : Option String)
  | nonObj
deriving DecidableEq, Repr

/-- The parsed JSON value handed to validate_and_clean_cards: a list of
entries, or any non-list value (the isinstance(cards_data, list) guard). -/
inductive CardsData where
  | list (entries : List RawEntry)
  | nonList
deriving DecidableEq, Repr

/-- Lines 96-107, the body of the validation loop for one entry: a dict
contributes a card iff author, start and end are non-empty after strip();
the appended card carries the stripped values; a non-dict contributes
nothing. -/
def cleanEntry : RawEntry → Option Card
  | .nonObj => none
  | .obj a s e =>
    let author := pyStrip (a.getD "")
    let start := pyStrip (s.getD "")
    let endv := pyStrip (e.getD "")
    if author ≠ "" ∧ start ≠ "" ∧ endv ≠ "" then some ⟨author, start, endv⟩
    else none

/-- Lines 89-109: validate_and_clean_cards. -/
def validate_and_clean_cards : CardsData → List Card
  | .nonList => []
  | .list entries => entries.filterMap cleanEntry

/-- The class of entries the specification calls well-formed: dicts whose
author, start and end fields are all non-empty after trimming whitespace. -/
def wellFormedEntry : RawEntry → Bool
  | .nonObj => false
  | .obj a s e =>
    pyStrip (a.getD "") ≠ "" ∧ pyStrip (s.getD "") ≠ "" ∧ pyStrip (e.getD "") ≠ ""

/-- The card a well-formed entry contributes: its three stripped fields. -/
def cleanFn : RawEntry → Card
  | .nonObj => { author := "", start := "", end_ := "" }
  | .obj a s e =>
    { author := pyStrip (a.getD ""), start := pyStrip (s.getD ""),
      end_ := pyStrip (e.getD "") }

/-- The outcome of one oracle call, as destructured by lines 157-164: the
regex search for a bracketed list of objects either fails (noListMatch), or
its matched text fails json.loads (badJson), or parses to a JSON value
(parsed).  The regex guarantees a successfully parsed match is a JSON list,
but the validator re-checks this, so parsed carries a CardsData. -/
inductive OracleResponse where
  | noListMatch
  | badJson
  | parsed (data : CardsData)
deriving DecidableEq, Repr

/-- Result of identify_card_boundaries, instrumented with the number of
oracle (Anthropic API) calls made and the number of time.sleep calls
performed, so that the retry policy is visible in the model. -/
structure IdentifyResult where
  cards : List Card
  oracle_calls : Nat
  sleeps : Nat
deriving DecidableEq, Repr

/-- Lines 111-172: identify_card_boundaries over an oracle modelled as a
stream of responses (response n answers the n-th API call).  The source
makes a single client.messages.create call; on a failed regex match or an
empty validation result it prints a retry message, sleeps one second and
returns the empty list without a second call; on a json.loads error it
returns the empty list immediately. -/
def identify_card_boundaries (oracle : Nat → OracleResponse) : IdentifyResult :=
  match oracle 0 with
  | .badJson => { cards := [], oracle_calls := 1, sleeps := 0 }
  | .noListMatch => { cards := [], oracle_calls := 1, sleeps := 1 }
  | .parsed data =>
    let cleaned_cards := validate_and_clean_cards data
    if cleaned_cards ≠ [] then { cards := cleaned_cards, oracle_calls := 1, sleeps := 0 }
    else { cards := [], oracle_calls := 1, sleeps := 1 }

/-- A node of the parsed document tree (the BeautifulSoup view of the HTML
produced by extract_formatted_text): an element with a tag name and ordered
children, or a navigable string.  Attributes play no role in the extraction
logic and are not modelled; equality of nodes is structural, matching the
structural __eq__ of bs4 tags and strings.  HTML parsing itself is an
external collaborator: extract_card_html is embedded as a function of the
parsed tree, and descriptor texts are taken at the model boundary as the
already html.unescape-d strings of lines 181-182. -/
inductive Node where
  | text (s : String)
  | tag (name : String) (children : List Node)

mutual

/-- The structural equality test of bs4 (Tag.__eq__ compares name and
contents recursively, NavigableString.__eq__ compares the strings): this is
the comparison performed by current == end_elem on line 213. -/
def nodeEq : Node → Node → Bool
  | .text s, .text t => s = t
  | .tag n cs, .tag m ds => n = m && nodeListEq cs ds
  | _, _ => false

/-- Pointwise nodeEq on sibling lists. -/
def nodeListEq : List Node → List Node → Bool
  | [], [] => true
  | a :: as, b :: bs => nodeEq a b && nodeListEq as bs
  | _, _ => false

end

mutual

/-- get_text() of a node: concatenation of all descendant strings in
document order. -/
def get_text : Node → String
  | .text s => s
  | .tag _ cs => get_textL cs

/-- get_text over a sibling list. -/
def get_textL : List Node → String
  | [] => ""
  | n :: ns => get_text n ++ get_textL ns

end

mutual

/-- str(node): serialized markup of a node (attribute-free tags). -/
def render : Node → String
  | .text s => s
  | .tag name cs => "<" ++ name ++ ">" ++ renderL cs ++ "</" ++ name ++ ">"

/-- Serialized markup of a sibling list. -/
def renderL : List Node → String
  | [] => ""
  | n :: ns => render n ++ renderL ns

end

mutual

/-- Preorder flattening of a sibling list, pairing every node (in
next_element document order) with its sibling suffix: the list that starts
at the node itself and continues with its following siblings.  The first
components enumerate the document in the order of the bs4 next_element
walk; the second component of an entry is exactly the chain the sibling
walk of lines 210-215 visits from that node. -/
def flatSibs : List Node → List (Node × List Node)
  | [] => []
  | n :: ns => (n, n :: ns) :: (flatNode n ++ flatSibs ns)

/-- Preorder flattening of the strict descendants of one node. -/
def flatNode : Node → List (Node × List Node)
  | .text _ => []
  | .tag _ cs => flatSibs cs

end

/-- The node kinds scanned by soup.find_all(["p", "div", "span"]) on
line 186. -/
def isCandidate : Node → Bool
  | .text _ => false
  | .tag name _ => name = "p" || name = "div" || name = "span"

/-- One linear scan over the flattened document, as both anchor searches of
lines 184-206 perform it: visit entries in document order, skip entries
whose node fails the test predicate without calling flexible_match, and
stop at the first entry whose flattened text flexible-matches the target.
Outer none: flexible_match raised (ZeroDivisionError), aborting the card
(caught by the except of line 229).  some none: the scan ran off the end
with no match.  some (some i): the first match is at index i of the scanned
list. -/
def scanFor (test : Node → Bool) (target : String) : List (Node × List Node) → Option (Option Nat)
  | [] => some none
  | x :: xs =>
    if test x.fst then
      match flexible_match target (get_text x.fst) defaultThreshold with
      | none => none
      | some true => some (some 0)
      | some false => (scanFor test target xs).map (Option.map Nat.succ)
    else (scanFor test target xs).map (Option.map Nat.succ)

/-- Lines 185-189: the start-anchor search scans, in document order, only
the nodes find_all(["p", "div", "span"]) yields. -/
def findStart (target : String) (flat : List (Node × List Node)) : Option (Option Nat) :=
  scanFor isCandidate target flat

/-- Lines 196-202: the end-anchor search starts at the start element itself
and follows next_element order, testing every visited node. -/
def findEnd (target : String) (flat : List (Node × List Node)) : Option (Option Nat) :=
  scanFor (fun _ => true) target flat

/-- The prefix of a list up to and including the first element satisfying
the predicate; the whole list when no element satisfies it. -/
def takeToIncl (p : Node → Bool) : List Node → List Node
  | [] => []
  | n :: ns => if p n then [n] else n :: takeToIncl p ns

/-- Python "".join. -/
def strJoin (l : List String) : String := l.foldl (fun a b => a ++ b) ""

/-- Lines 208-217: the materializer walk.  Starting from the start element,
its sibling chain is walked; each visited node contributes its serialized
markup; the walk stops after appending a node equal (bs4 ==) to the end
element, or when the sibling chain is exhausted. -/
def materializeSpan (sibs : List Node) (end_elem : Node) : String :=
  strJoin ((takeToIncl (fun n => nodeEq n end_elem) sibs).map render)

/-- Lines 220-221: first match of the regex https?://S+ in the serialized
markup; the empty string when there is none.  A match starts at the
leftmost occurrence of the scheme prefix followed by at least one further
non-whitespace character, and extends over all following non-whitespace
characters. -/
def urlAt (l : List Char) : Option (List Char) :=
  if ("http://".data.isPrefixOf l ∧ l.drop 7 ≠ [] ∧ ¬ isSpace (l.drop 7).headI) ∨
     ("https://".data.isPrefixOf l ∧ l.drop 8 ≠ [] ∧ ¬ isSpace (l.drop 8).headI) then
    some (l.takeWhile (fun c => ¬ isSpace c))
  else none

/-- Scan for the leftmost regex match (see urlAt). -/
def extractUrlL : List Char → List Char
  | [] => []
  | c :: cs =>
    match urlAt (c :: cs) with
    | some u => u
    | none => extractUrlL cs

/-- url extraction from the concatenated markup (lines 220-221). -/
def extract_url (s : String) : String := String.mk (extractUrlL s.data)

/-- Lines 23-26: class CardWithHTML(TypedDict). -/
structure CardWithHTML where
  author : String
  url : String
  html_content : String
deriving DecidableEq, Repr

/-- Lines 179-232: the per-card body of the extraction loop, over the
flattened document.  none models the continue paths: start not found (line
193), end not found (line 206), or a flexible_match exception caught by
line 229. -/
def processCard (flat : List (Node × List Node)) (card : Card) : Option CardWithHTML :=
  match findStart card.start flat with
  | none => none
  | some none => none
  | some (some i) =>
    match flat[i]? with
    | none => none
    | some (_, sibs) =>
      match findEnd card.end_ (flat.drop i) with
      | none => none
      | some none => none
      | some (some j) =>
        match (flat.drop i)[j]? with
        | none => none
        | some (end_elem, _) =>
          let full_html := materializeSpan sibs end_elem
          some { author := card.author, url := extract_url full_html,
                 html_content := full_html }

/-- Lines 174-234: extract_card_html over the parsed document tree (the
top-level sibling list of the soup): each card contributes its extracted
fragment, failed cards are skipped. -/
def extract_card_html (doc : List Node) (cards : List Card) : List CardWithHTML :=
  cards.filterMap (processCard (flatSibs doc))

def fmFast (target text : String) : Option Bool :=
  if (pyWordsAux [] (lowerL target.data)).length = 0 then none
  else some (decide (8 * (pyWordsAux [] (lowerL target.data)).length ≤
    10 * ((pyWordsAux [] (lowerL target.data)).filter
      (fun word => (pyWordsAux [] (lowerL text.data)).contains word)).length))

def scanForFast (test : Node → Bool) (target : String) :
    List (Node × List Node) → Option (Option Nat)
  | [] => some none
  | x :: xs =>
    if test x.fst then
      match fmFast target (get_text x.fst) with
      | none => none
      | some true => some (some 0)
      | some false => (scanForFast test target xs).map (Option.map Nat.succ)
    else (scanForFast test target xs).map (Option.map Nat.succ)

def processCardFast (flat : List (Node × List Node)) (card : Card) : Option CardWithHTML :=
  match scanForFast isCandidate card.start flat with
  | none => none
  | some none => none
  | some (some i) =>
    match flat[i]? with
    | none => none
    | some (_, sibs) =>
      match scanForFast (fun _ => true) card.end_ (flat.drop i) with
      | none => none
      | some none => none
      | some (some j) =>
        match (flat.drop i)[j]? with
        | none => none
        | some (end_elem, _) =>
          let full_html := materializeSpan sibs end_elem
          some { author := card.author, url := extract_url full_html,
                 html_content := full_html }

/-- Python text.split(sep) for a non-empty sep, with list-length fuel: split
at each leftmost occurrence of sep, keeping empty pieces.  The accumulator
holds the current piece reversed.  When fuel is zero the list is empty
whenever sep is non-empty, so the fuel branch agrees with the empty-list
branch. -/
def splitLoop (sep : List Char) : Nat → List Char → List Char → List (List Char)
  | 0, rest, acc => [acc.reverse ++ rest]
  | _ + 1, [], acc => [acc.reverse]
  | fuel + 1, c :: cs, acc =>
    if sep.isPrefixOf (c :: cs) then
      acc.reverse :: splitLoop sep fuel ((c :: cs).drop sep.length) []
    else splitLoop sep fuel cs (c :: acc)

/-- Python l.split(sep) over character lists (sep non-empty). -/
def pySplit (l sep : List Char) : List (List Char) := splitLoop sep l.length l []

/-- Python text.split(sep) on strings; none models the ValueError raised on
an empty separator. -/
def pySplitStr (text sep : String) : Option (List String) :=
  if sep.data = [] then none
  else some ((pySplit text.data sep.data).map String.mk)

/-- Python text.count(needle) for non-empty needle: the number of
non-overlapping occurrences, via the split piece count. -/
def countOccur (hay needle : String) : Nat := (pySplit hay.data needle.data).length - 1

/-- Lines 248-252 of clean_card_content at the level of the author-bearing
element's flattened text: split on the literal author string; with more
than two pieces the text becomes the author followed by the concatenation
of the pieces from the third onward; otherwise it is left unchanged.  none
models the ValueError of str.split on an empty author. -/
def dedupe_author_text (text author : String) : Option String :=
  match pySplitStr text author with
  | none => none
  | some parts =>
    if parts.length > 2 then some (author ++ strJoin (parts.drop 2))
    else some text

/-- Add one to the leading component of a child path. -/
def incHead : List Nat → List Nat
  | [] => []
  | i :: p => (i + 1) :: p

/-- re.compile(re.escape(needle)).search(hay): does needle occur in hay as a
contiguous substring? -/
def containsSub : List Char → List Char → Bool
  | [], needle => needle.isEmpty
  | c :: rest, needle => needle.isPrefixOf (c :: rest) || containsSub rest needle

mutual

/-- soup.find(string=re.compile(re.escape(author))) on line 240: the path
(child indices from the given node) of the first navigable string, in
document preorder, that contains the author as a substring. -/
def ftpN (author : List Char) : Node → Option (List Nat)
  | .text s => if containsSub s.data author then some [] else none
  | .tag _ cs => ftpS author cs

/-- The same search across a sibling list. -/
def ftpS (author : List Char) : List Node → Option (List Nat)
  | [] => none
  | n :: ns =>
    match ftpN author n with
    | some p => some (0 :: p)
    | none =>
      match ftpS author ns with
      | some q => some (incHead q)
      | none => none

end

/-- The node of a tree at a child-index path. -/
def getNode : Node → List Nat → Option Node
  | n, [] => some n
  | .text _, _ :: _ => none
  | .tag _ cs, i :: p =>
    match cs[i]? with
    | some c => getNode c p
    | none => none

/-- Replace the node at a child-index path by the image under f; out-of-tree
paths leave the tree unchanged. -/
def updNode (f : Node → Node) : List Nat → Node → Node
  | [], n => f n
  | _ :: _, .text s => .text s
  | i :: p, .tag name cs =>
    .tag name (cs.enum.map (fun nc => if nc.1 = i then updNode f p nc.2 else nc.2))

/-- Lines 236-254: clean_card_content on the parsed fragment tree, whose
root node plays the role of the soup object.  Locate the first string
containing the author; bail out unchanged when there is none or when the
found string is empty (an empty NavigableString is falsy, so the guard of
line 241 fails).  Otherwise remove every preceding sibling of the string's
containing element, then, when the element's flattened text splits on the
author into more than two pieces, replace the element's contents by the
deduplicated text.  none models the ValueError of split on an empty
author. -/
def clean_card_content (root : Node) (author : String) : Option Node :=
  match ftpN author.data root with
  | none => some root
  | some p =>
    match getNode root p with
    | some (.text s) =>
      if s = "" then some root
      else
        let pp := p.dropLast
        let root1 :=
          if pp = [] then root
          else updNode (fun gp => match gp with
            | .tag name cs => .tag name (cs.drop (pp.getLastD 0))
            | t => t) pp.dropLast root
        let pp' := if pp = [] then [] else pp.dropLast ++ [0]
        match getNode root1 pp' with
        | some parent =>
          match pySplitStr (get_text parent) author with
          | none => none
          | some parts =>
            if parts.length > 2 then
              some (updNode (fun fe => match fe with
                | .tag name _ => .tag name [.text (author ++ strJoin (parts.drop 2))]
                | other => other) pp' root1)
            else some root1
        | none => some root1
    | _ => some root

/-- Rewriting flexible_match at the default threshold into a rational-free
form, so that concrete instances can be settled by kernel evaluation:
for n tokens and k matching tokens, k / n >= 8/10 iff 8 * n <= 10 * k. -/
theorem flexible_match_default_eval (target text : String) :
    flexible_match target text defaultThreshold =
      (if (pyWordsAux [] (lowerL target.data)).length = 0 then none
       else some (decide (8 * (pyWordsAux [] (lowerL target.data)).length ≤
         10 * ((pyWordsAux [] (lowerL target.data)).filter
            (fun word => (pyWordsAux [] (lowerL text.data)).contains word)).length))) := by
  unfold flexible_match defaultThreshold
  set tw := pyWordsAux [] (lowerL target.data) with htw
  set xw := pyWordsAux [] (lowerL text.data) with hxw
  set k := (tw.filter (fun word => xw.contains word)).length with hk
  by_cases h : tw.length = 0
  · simp [h]
  · have hn : 0 < ((tw.length : ℚ)) := by
      exact_mod_cast Nat.pos_of_ne_zero h
    simp only [h, if_false]
    congr 1
    rw [decide_eq_decide, ge_iff_le, div_le_div_iff₀ (by norm_num) hn]
    constructor
    · intro h1
      have h2 : ((8 * tw.length : ℕ) : ℚ) ≤ ((10 * k : ℕ) : ℚ) := by push_cast; linarith
      exact_mod_cast h2
    · intro h1
      have h2 : ((8 * tw.length : ℕ) : ℚ) ≤ ((10 * k : ℕ) : ℚ) := by exact_mod_cast h1
      push_cast at h2
      linarith

theorem pyWordsAux_ne_nil_of_cur (cur l : List Char) (hc : cur ≠ []) :
    pyWordsAux cur l ≠ [] := by
  induction l generalizing cur with
  | nil => simp [pyWordsAux, hc]
  | cons c cs ih =>
    by_cases hs : isSpace c
    · simp [pyWordsAux, hs, hc]
    · simpa [pyWordsAux, hs] using ih (c :: cur) (by simp)

theorem pyWordsAux_ne_nil (l : List Char) (c : Char) (hc : c ∈ l) (hs : isSpace c = false) :
    pyWordsAux [] l ≠ [] := by
  induction l with
  | nil => simp at hc
  | cons d ds ih =>
    by_cases hd : isSpace d
    · have hcd : c ∈ ds := by
        rcases List.mem_cons.mp hc with h | h
        · subst h; rw [hd] at hs; cases hs
        · exact h
      simpa [pyWordsAux, hd] using ih hcd
    · simpa [pyWordsAux, hd] using pyWordsAux_ne_nil_of_cur [d] ds (by simp)

theorem pyWordsAux_eq_nil {l : List Char} (h : ∀ c ∈ l, isSpace c = true) :
    pyWordsAux [] l = [] := by
  induction l with
  | nil => rfl
  | cons c cs ih =>
    have hc := h c (by simp)
    simp only [pyWordsAux, hc, if_true, List.mem_cons]
    exact ih (fun d hd => h d (by simp [hd]))

theorem toLower_not_space {c : Char} (h : isSpace c = false) :
    isSpace (Char.toLower c) = false := by
  unfold Char.toLower
  by_cases hr : c.toNat ≥ 65 ∧ c.toNat ≤ 90
  · rw [if_pos hr]
    obtain ⟨h1, h2⟩ := hr
    generalize c.toNat = n at h1 h2
    interval_cases n <;> decide
  · rwa [if_neg hr]

theorem pyStripL_ne_nil {l : List Char} (h : pyStripL l ≠ []) :
    ∃ c ∈ l, isSpace c = false := by
  unfold pyStripL at h
  rw [ne_eq, List.reverse_eq_nil_iff, List.dropWhile_eq_nil_iff] at h
  push_neg at h
  obtain ⟨c, hm, hs⟩ := h
  refine ⟨c, ?_, by simpa using hs⟩
  have h1 : c ∈ (l.dropWhile isSpace).reverse := hm
  rw [List.mem_reverse] at h1
  exact (List.dropWhile_sublist isSpace).subset h1

theorem words_lower_ne_nil {s : String} (h : pyStrip s ≠ "") :
    pyWordsAux [] (lowerL s.data) ≠ [] := by
  have hl : pyStripL s.data ≠ [] := by
    intro he
    exact h (by simp [pyStrip, he])
  obtain ⟨c, hm, hs⟩ := pyStripL_ne_nil hl
  exact pyWordsAux_ne_nil (lowerL s.data) (Char.toLower c)
    (List.mem_map_of_mem Char.toLower hm) (toLower_not_space hs)

theorem scanFor_found {test : Node → Bool} {target : String}
    {l : List (Node × List Node)} {i : Nat}
    (h : scanFor test target l = some (some i)) :
    ∃ x, l[i]? = some x ∧ test x.fst = true ∧
      flexible_match target (get_text x.fst) defaultThreshold = some true ∧
      ∀ j, j < i → ∀ y, l[j]? = some y → test y.fst = true →
        flexible_match target (get_text y.fst) defaultThreshold = some false := by
  induction l generalizing i with
  | nil => simp [scanFor] at h
  | cons x xs ih =>
    by_cases hT : test x.fst
    · rw [scanFor, if_pos hT] at h
      rcases hfm : flexible_match target (get_text x.fst) defaultThreshold with _ | b
      · rw [hfm] at h; cases h
      · cases b
        · rw [hfm] at h
          rcases hrec : scanFor test target xs with _ | o
          · rw [hrec] at h; cases h
          · rw [hrec] at h
            rcases o with _ | i'
            · cases h
            · simp only [Option.map_some, Option.map] at h
              have hi : i = i' + 1 := by
                cases h; rfl
              subst hi
              obtain ⟨y, hy, hty, hfy, hprev⟩ := ih hrec
              refine ⟨y, by simpa using hy, hty, hfy, ?_⟩
              intro j hj z hz htz
              cases j with
              | zero =>
                simp only [List.getElem?_cons_zero] at hz
                cases hz
                exact hfm
              | succ j' =>
                simp only [List.getElem?_cons_succ] at hz
                exact hprev j' (by omega) z hz htz
        · rw [hfm] at h
          have hi : i = 0 := by cases h; rfl
          subst hi
          exact ⟨x, by simp, hT, hfm, by omega⟩
    · rw [scanFor, if_neg hT] at h
      rcases hrec : scanFor test target xs with _ | o
      · rw [hrec] at h; cases h
      · rw [hrec] at h
        rcases o with _ | i'
        · cases h
        · simp only [Option.map_some, Option.map] at h
          have hi : i = i' + 1 := by cases h; rfl
          subst hi
          obtain ⟨y, hy, hty, hfy, hprev⟩ := ih hrec
          refine ⟨y, by simpa using hy, hty, hfy, ?_⟩
          intro j hj z hz htz
          cases j with
          | zero =>
            simp only [List.getElem?_cons_zero] at hz
            cases hz
            exact absurd htz hT
          | succ j' =>
            simp only [List.getElem?_cons_succ] at hz
            exact hprev j' (by omega) z hz htz

theorem scanFor_not_found {test : Node → Bool} {target : String}
    {l : List (Node × List Node)}
    (h : scanFor test target l = some none) :
    ∀ y ∈ l, test y.fst = true →
      flexible_match target (get_text y.fst) defaultThreshold = some false := by
  induction l with
  | nil => simp
  | cons x xs ih =>
    intro y hy hty
    by_cases hT : test x.fst
    · rw [scanFor, if_pos hT] at h
      rcases hfm : flexible_match target (get_text x.fst) defaultThreshold with _ | b
      · rw [hfm] at h; cases h
      · cases b
        · rw [hfm] at h
          rcases hrec : scanFor test target xs with _ | o
          · rw [hrec] at h; cases h
          · rw [hrec] at h
            rcases o with _ | i'
            · rcases List.mem_cons.mp hy with he | hm
              · subst he; exact hfm
              · exact ih hrec y hm hty
            · simp only [Option.map_some, Option.map] at h; cases h
        · rw [hfm] at h; cases h
    · rw [scanFor, if_neg hT] at h
      rcases hrec : scanFor test target xs with _ | o
      · rw [hrec] at h; cases h
      · rw [hrec] at h
        rcases o with _ | i'
        · rcases List.mem_cons.mp hy with he | hm
          · subst he; exact absurd hty hT
          · exact ih hrec y hm hty
        · simp only [Option.map_some, Option.map] at h; cases h

theorem scanFor_none_of_all_false {test : Node → Bool} {target : String}
    {l : List (Node × List Node)}
    (h : ∀ y ∈ l, test y.fst = true →
      flexible_match target (get_text y.fst) defaultThreshold = some false) :
    scanFor test target l = some none := by
  induction l with
  | nil => rfl
  | cons x xs ih =>
    have hrec : scanFor test target xs = some none :=
      ih (fun y hy => h y (by simp [hy]))
    by_cases hT : test x.fst
    · rw [scanFor, if_pos hT, h x (by simp) hT, hrec]
      rfl
    · rw [scanFor, if_neg hT, hrec]
      rfl

/-- Kernel-computable form of flexible_match at the default threshold (the
rational comparison replaced by the equivalent integer comparison); used
only to evaluate concrete instances, justified by
flexible_match_default_eval. -/
theorem fm_default_eq_fmFast (target text : String) :
    flexible_match target text defaultThreshold = fmFast target text :=
  flexible_match_default_eval target text

/-- Evaluation mirror of scanFor (see fmFast). -/
theorem scanFor_eq_fast (test : Node → Bool) (target : String) :
    ∀ l, scanFor test target l = scanForFast test target l
  | [] => rfl
  | x :: xs => by
    rw [scanFor, scanForFast, fm_default_eq_fmFast, scanFor_eq_fast test target xs]

/-- Evaluation mirror of processCard (see fmFast). -/
theorem processCard_eq_fast (flat : List (Node × List Node)) (card : Card) :
    processCard flat card = processCardFast flat card := by
  simp only [processCard, processCardFast, findStart, findEnd, scanFor_eq_fast]

theorem processCard_skip_start {flat : List (Node × List Node)} {card : Card}
    (h : findStart card.start flat = some none) :
    processCard flat card = none := by
  rw [processCard, h]

theorem processCard_skip_end {flat : List (Node × List Node)} {card : Card} {i : Nat}
    (hs : findStart card.start flat = some (some i))
    (h : findEnd card.end_ (flat.drop i) = some none) :
    processCard flat card = none := by
  obtain ⟨⟨n, sibs⟩, hx, -, -, -⟩ := scanFor_found hs
  simp only [processCard, hs, hx, h]

theorem extract_card_html_skip {doc : List Node} {card : Card}
    (h : processCard (flatSibs doc) card = none) (pre post : List Card) :
    extract_card_html doc (pre ++ card :: post) =
      extract_card_html doc pre ++ extract_card_html doc post := by
  unfold extract_card_html
  rw [List.filterMap_append, List.filterMap_cons, h]

mutual

theorem nodeEq_refl : ∀ n : Node, nodeEq n n = true
  | .text s => by simp [nodeEq]
  | .tag m cs => by simp [nodeEq, nodeListEq_refl cs]

theorem nodeListEq_refl : ∀ l : List Node, nodeListEq l l = true
  | [] => by simp [nodeListEq]
  | a :: as => by simp [nodeListEq, nodeEq_refl a, nodeListEq_refl as]

end

theorem takeToIncl_of_all_false {p : Node → Bool} {l : List Node}
    (h : ∀ n ∈ l, p n = false) : takeToIncl p l = l := by
  induction l with
  | nil => rfl
  | cons n ns ih =>
    rw [takeToIncl, if_neg (by simp [h n (by simp)]), ih (fun m hm => h m (by simp [hm]))]

theorem strJoin_singleton (s : String) : strJoin [s] = s := by
  show "" ++ s = s
  exact String.empty_append s

theorem toLower_of_space {c : Char} (h : isSpace c = true) : Char.toLower c = c := by
  have hc : ((c = ' ' ∨ c = '\t') ∨ c = '\r') ∨ c = '\n' := by
    simpa [isSpace, Char.isWhitespace] using h
  rcases hc with ((h | h) | h) | h <;> subst h <;> decide

theorem words_lower_eq_nil_of_all_space {s : String}
    (h : ∀ c ∈ s.data, isSpace c = true) :
    pyWordsAux [] (lowerL s.data) = [] := by
  refine pyWordsAux_eq_nil ?_
  intro c hc
  obtain ⟨d, hd, hdc⟩ := List.mem_map.mp hc
  subst hdc
  rw [toLower_of_space (h d hd)]
  exact h d hd

theorem dropWhile_head_false {p : Char → Bool} {l cs : List Char} {c : Char}
    (h : l.dropWhile p = c :: cs) : p c = false := by
  induction l with
  | nil => simp at h
  | cons d ds ih =>
    rw [List.dropWhile_cons] at h
    by_cases hd : p d
    · rw [if_pos hd] at h
      exact ih h
    · rw [if_neg hd] at h
      cases h
      exact Bool.of_not_eq_true hd

theorem stripL_mem_nonspace {m : List Char} (h : pyStripL m ≠ []) :
    ∃ c ∈ pyStripL m, isSpace c = false := by
  unfold pyStripL at h ⊢
  rcases he : (m.dropWhile isSpace).reverse.dropWhile isSpace with _ | ⟨c, cs⟩
  · rw [he] at h; simp at h
  · refine ⟨c, ?_, dropWhile_head_false he⟩
    simp

theorem words_lower_ne_nil_of_mem {s : String}
    (h : ∃ c ∈ s.data, isSpace c = false) :
    pyWordsAux [] (lowerL s.data) ≠ [] := by
  obtain ⟨c, hm, hs⟩ := h
  exact pyWordsAux_ne_nil (lowerL s.data) (Char.toLower c)
    (List.mem_map_of_mem Char.toLower hm) (toLower_not_space hs)

theorem words_of_pyStrip_ne_nil {r : String} (h : pyStrip r ≠ "") :
    pyWordsAux [] (lowerL (pyStrip r).data) ≠ [] := by
  have hd : (pyStrip r).data = pyStripL r.data := rfl
  have hne : pyStripL r.data ≠ [] := by
    intro he
    exact h (by simp [pyStrip, he])
  obtain ⟨c, hm, hs⟩ := stripL_mem_nonspace hne
  exact words_lower_ne_nil_of_mem ⟨c, by rw [hd]; exact hm, hs⟩

theorem cleanEntry_eq (e : RawEntry) :
    cleanEntry e = if wellFormedEntry e then some (cleanFn e) else none := by
  cases e with
  | nonObj => rfl
  | obj a s e =>
    show (if _ then _ else _) = _
    by_cases h : pyStrip (a.getD "") ≠ "" ∧ pyStrip (s.getD "") ≠ "" ∧ pyStrip (e.getD "") ≠ ""
    · rw [if_pos h, if_pos (by simpa [wellFormedEntry] using h)]
      rfl
    · rw [if_neg h, if_neg (by simpa [wellFormedEntry] using h)]

theorem validate_eq_filter (es : List RawEntry) :
    validate_and_clean_cards (.list es) = (es.filter wellFormedEntry).map cleanFn := by
  show es.filterMap cleanEntry = (es.filter wellFormedEntry).map cleanFn
  induction es with
  | nil => rfl
  | cons e es ih =>
    rw [List.filterMap_cons, List.filter_cons, cleanEntry_eq e]
    by_cases h : wellFormedEntry e
    · rw [if_pos h, if_pos h, List.map_cons, ih]
    · rw [if_neg (by simpa using h), if_neg (by simpa using h), ih]

end ExtractCards

open ExtractCards


/-- Claim C1: the specification states that on a malformed or empty oracle
response the boundary identification retries the oracle call exactly once
after a fixed short delay before yielding zero cards.  The code disagrees
with the specification and with its own retry log message and comment: it
makes exactly one oracle call on every run, and on a failed first response
it sleeps once and returns zero cards without a second attempt.  This
theorem records the actual behaviour: the call count is always one, and at
the failing input (a response with no parsable list of objects) the result
is zero cards after one call and one sleep. -/
theorem claim_C1 (oracle : Nat → OracleResponse) :
    (identify_card_boundaries oracle).oracle_calls = 1 ∧
    identify_card_boundaries (fun _ => OracleResponse.noListMatch) =
      { cards := [], oracle_calls := 1, sleeps := 1 } := by
  constructor
  · rcases h : oracle 0 with _ | _ | data
    · simp [identify_card_boundaries, h]
    · simp [identify_card_boundaries, h]
    · unfold identify_card_boundaries
      rw [h]
      dsimp only
      split <;> rfl
  · rfl

/-- Claim C2 counterexample: the claim states that unparsable oracle output
gives the validator an empty-result outcome distinguishable from the
zero-card outcome.  In the code both outcomes are the same empty list, both
at the validator (a non-list input and a list that validates to zero
descriptors return identical values) and at identify_card_boundaries (a
failed regex match and a parsed-but-worthless response return identical
results), so no caller can distinguish them. -/
theorem claim_C2_counterexample :
    validate_and_clean_cards CardsData.nonList = [] ∧
    validate_and_clean_cards (CardsData.list [RawEntry.nonObj]) = [] ∧
    validate_and_clean_cards CardsData.nonList =
      validate_and_clean_cards (CardsData.list [RawEntry.nonObj]) ∧
    identify_card_boundaries (fun _ => OracleResponse.noListMatch) =
      identify_card_boundaries
        (fun _ => OracleResponse.parsed (CardsData.list [RawEntry.nonObj])) :=
  ⟨rfl, rfl, rfl, rfl⟩

/-- Claim C2, amended: on unparsable oracle output the validator returns
the empty list, which is the same value it returns for a parsed list that
validates to zero descriptors; there is no distinct empty-result signal for
the caller. -/
theorem claim_C2 (es : List RawEntry) (h : ∀ e ∈ es, wellFormedEntry e = false) :
    validate_and_clean_cards CardsData.nonList = [] ∧
    validate_and_clean_cards (CardsData.list es) = [] ∧
    validate_and_clean_cards CardsData.nonList =
      validate_and_clean_cards (CardsData.list es) := by
  have h2 : validate_and_clean_cards (CardsData.list es) = [] := by
    rw [validate_eq_filter]
    rw [List.filter_eq_nil_iff.mpr (fun e he => by simp [h e he])]
    rfl
  exact ⟨rfl, h2, h2.symm⟩

/-- Witness for claim C2 at a concrete malformed list. -/
theorem claim_C2_witness :
    validate_and_clean_cards CardsData.nonList =
      validate_and_clean_cards (CardsData.list [RawEntry.nonObj]) :=
  (claim_C2 [RawEntry.nonObj] (by decide)).2.2

/-- Claim C3: for every input list, the validator output consists of
exactly the well-formed entries (dicts whose author, start and end are
non-empty after trimming), stripped, in their original relative order: its
length is the number of well-formed entries and it equals the image of the
order-preserving filter of the input. -/
theorem claim_C3 (es : List RawEntry) :
    (validate_and_clean_cards (.list es)).length = (es.filter wellFormedEntry).length ∧
    validate_and_clean_cards (.list es) = (es.filter wellFormedEntry).map cleanFn := by
  have h := validate_eq_filter es
  exact ⟨by rw [h, List.length_map], h⟩

/-- Claim C4 counterexample: the claim asserts reflexivity of
flexible_match for every non-empty string and threshold at most one.  The
single-space string is non-empty, yet flexible_match on it raises
ZeroDivisionError (modelled as none) instead of returning true, because its
token list is empty. -/
theorem claim_C4_counterexample :
    (" " : String) ≠ "" ∧ defaultThreshold ≤ 1 ∧
    flexible_match " " " " defaultThreshold = none ∧
    flexible_match " " " " defaultThreshold ≠ some true := by
  refine ⟨by decide, by norm_num [defaultThreshold], ?_, ?_⟩
  · rw [fm_default_eq_fmFast]; decide
  · rw [fm_default_eq_fmFast]; decide

/-- Claim C4, amended: flexible_match is reflexive on every string that is
non-empty after trimming whitespace (equivalently, that has at least one
whitespace-separated token), for every threshold at most one. -/
theorem claim_C4 (t : String) (θ : ℚ) (ht : pyStrip t ≠ "") (hθ : θ ≤ 1) :
    flexible_match t t θ = some true := by
  have hw : pyWordsAux [] (lowerL t.data) ≠ [] := words_lower_ne_nil ht
  have hlen : (pyWordsAux [] (lowerL t.data)).length ≠ 0 := by
    simpa [List.length_eq_zero] using hw
  simp only [flexible_match]
  rw [if_neg hlen]
  congr 1
  have hfil : (pyWordsAux [] (lowerL t.data)).filter
      (fun word => (pyWordsAux [] (lowerL t.data)).contains word) =
      pyWordsAux [] (lowerL t.data) := by
    apply List.filter_eq_self.mpr
    intro a ha
    simpa [List.contains] using List.elem_eq_true_of_mem ha
  rw [hfil]
  apply decide_eq_true
  have hpos : (0 : ℚ) < ((pyWordsAux [] (lowerL t.data)).length : ℚ) := by
    exact_mod_cast Nat.pos_of_ne_zero hlen
  rw [ge_iff_le, le_div_iff₀ hpos]
  nlinarith [hpos]

/-- Witness for claim C4 at a concrete one-token string and threshold 1. -/
theorem claim_C4_witness :
    pyStrip "hello" ≠ "" ∧ ((1 : ℚ) ≤ 1) ∧
    flexible_match "hello" "hello" 1 = some true :=
  ⟨by decide, le_refl 1, claim_C4 "hello" 1 (by decide) (le_refl 1)⟩

/-- Claim C10: flexible_match divides by the token count of the target.
Part one: for a target with no tokens (every character is whitespace, which
covers the empty string and whitespace-only strings) the call fails with
ZeroDivisionError (modelled as none) for every text and threshold, rather
than returning a boolean.  Part two: for a target with at least one token
the function is total, returning some boolean.  Part three: every field of
every card the validator lets through has at least one token after the
lowercasing flexible_match applies, so the error branch is unreachable on
validated descriptor fields. -/
theorem claim_C10 :
    (∀ target text : String, ∀ θ : ℚ, (∀ c ∈ target.data, isSpace c = true) →
       flexible_match target text θ = none) ∧
    (∀ target text : String, ∀ θ : ℚ, pyWordsAux [] (lowerL target.data) ≠ [] →
       ∃ b, flexible_match target text θ = some b) ∧
    (∀ data : CardsData, ∀ card ∈ validate_and_clean_cards data,
       pyWordsAux [] (lowerL card.author.data) ≠ [] ∧
       pyWordsAux [] (lowerL card.start.data) ≠ [] ∧
       pyWordsAux [] (lowerL card.end_.data) ≠ []) := by
  refine ⟨?_, ?_, ?_⟩
  · intro target text θ h
    have hz : pyWordsAux [] (lowerL target.data) = [] :=
      words_lower_eq_nil_of_all_space h
    simp only [flexible_match]
    rw [if_pos (by simp [hz])]
  · intro target text θ h
    have hlen : (pyWordsAux [] (lowerL target.data)).length ≠ 0 := by
      simpa [List.length_eq_zero] using h
    simp only [flexible_match]
    rw [if_neg hlen]
    exact ⟨_, rfl⟩
  · intro data card hmem
    cases data with
    | nonList => simp [validate_and_clean_cards] at hmem
    | list es =>
      rw [validate_eq_filter] at hmem
      obtain ⟨e, he, hce⟩ := List.mem_map.mp hmem
      have hwf : wellFormedEntry e = true := (List.mem_filter.mp he).2
      cases e with
      | nonObj => simp [wellFormedEntry] at hwf
      | obj a s e' =>
        have h3 : pyStrip (a.getD "") ≠ "" ∧ pyStrip (s.getD "") ≠ "" ∧
            pyStrip (e'.getD "") ≠ "" := by
          simpa [wellFormedEntry] using hwf
        subst hce
        exact ⟨words_of_pyStrip_ne_nil h3.1, words_of_pyStrip_ne_nil h3.2.1,
          words_of_pyStrip_ne_nil h3.2.2⟩

/-- Witness for claim C10: the whitespace-only target raises (part one)
and a validated card has token-bearing fields (part three applied to a
concrete validated list). -/
theorem claim_C10_witness :
    flexible_match " " "some text" (8 / 10) = none ∧
    (pyWordsAux [] (lowerL (Card.mk "Massey 17" "a b" "c").author.data) ≠ [] ∧
     pyWordsAux [] (lowerL (Card.mk "Massey 17" "a b" "c").start.data) ≠ [] ∧
     pyWordsAux [] (lowerL (Card.mk "Massey 17" "a b" "c").end_.data) ≠ []) :=
  ⟨claim_C10.1 " " "some text" (8 / 10) (by decide),
   claim_C10.2.2
     (CardsData.list [RawEntry.obj (some " Massey 17 ") (some "a b") (some "c")])
     (Card.mk "Massey 17" "a b" "c") (by decide)⟩

/-- Claim C5: the start anchor is the first node, in document order over
the candidate node kinds p, div and span, whose full flattened text
flexible-matches the descriptor start text: when the search yields index i,
the node there is a candidate whose text matches and every earlier
candidate fails the match; when the search yields no node, no candidate in
the whole document matches, the descriptor is skipped (start not found) and
the remaining descriptors are still processed. -/
theorem claim_C5 (doc : List Node) (card : Card) (cards : List Card) :
    (∀ i, findStart card.start (flatSibs doc) = some (some i) →
       ∃ x, (flatSibs doc)[i]? = some x ∧ isCandidate x.fst = true ∧
         flexible_match card.start (get_text x.fst) defaultThreshold = some true ∧
         ∀ j, j < i → ∀ y, (flatSibs doc)[j]? = some y → isCandidate y.fst = true →
           flexible_match card.start (get_text y.fst) defaultThreshold = some false) ∧
    (findStart card.start (flatSibs doc) = some none →
       (∀ y ∈ flatSibs doc, isCandidate y.fst = true →
          flexible_match card.start (get_text y.fst) defaultThreshold = some false) ∧
       processCard (flatSibs doc) card = none ∧
       extract_card_html doc (card :: cards) = extract_card_html doc cards) := by
  constructor
  · intro i hi
    exact scanFor_found hi
  · intro h
    refine ⟨scanFor_not_found h, processCard_skip_start h, ?_⟩
    unfold extract_card_html
    rw [List.filterMap_cons, processCard_skip_start h]

/-- Witness for claim C5: a descriptor whose start text matches no node is
skipped and leaves the output of the remaining descriptors unchanged. -/
theorem claim_C5_witness :
    processCard (flatSibs [Node.tag "p" [Node.text "Bob claims Y."]])
      (Card.mk "A" "zzz qqq" "w") = none ∧
    extract_card_html [Node.tag "p" [Node.text "Bob claims Y."]]
        [Card.mk "A" "zzz qqq" "w"] =
      extract_card_html [Node.tag "p" [Node.text "Bob claims Y."]] [] := by
  have h : findStart (Card.mk "A" "zzz qqq" "w").start
      (flatSibs [Node.tag "p" [Node.text "Bob claims Y."]]) = some none := by
    rw [findStart, scanFor_eq_fast]
    decide
  have happ := (claim_C5 [Node.tag "p" [Node.text "Bob claims Y."]]
    (Card.mk "A" "zzz qqq" "w") []).2 h
  exact ⟨happ.2.1, happ.2.2⟩

/-- Claim C6: a descriptor whose end text matches no node from the start
anchor onward in the next-element order yields end-not-found: the end
search reports no node, the descriptor contributes nothing, and the other
descriptors of the document, before and after it, are processed exactly as
if it were absent. -/
theorem claim_C6 (doc : List Node) (card : Card) (pre post : List Card) (i : Nat)
    (hs : findStart card.start (flatSibs doc) = some (some i))
    (hend : ∀ y ∈ (flatSibs doc).drop i,
       flexible_match card.end_ (get_text y.fst) defaultThreshold = some false) :
    findEnd card.end_ ((flatSibs doc).drop i) = some none ∧
    processCard (flatSibs doc) card = none ∧
    extract_card_html doc (pre ++ card :: post) =
      extract_card_html doc pre ++ extract_card_html doc post := by
  have he : findEnd card.end_ ((flatSibs doc).drop i) = some none :=
    scanFor_none_of_all_false (fun y hy _ => hend y hy)
  have hp : processCard (flatSibs doc) card = none := processCard_skip_end hs he
  exact ⟨he, hp, extract_card_html_skip hp pre post⟩

/-- Witness for claim C6: in a two-card document the descriptor with an
unlocatable end text is dropped while the other descriptor is still
processed. -/
theorem claim_C6_witness :
    findEnd "zzzz" ((flatSibs [Node.tag "p" [Node.text "Alice argues X."],
        Node.tag "p" [Node.text "Bob claims Y."]]).drop 0) = some none ∧
    processCard (flatSibs [Node.tag "p" [Node.text "Alice argues X."],
        Node.tag "p" [Node.text "Bob claims Y."]])
      (Card.mk "Alice" "Alice argues X." "zzzz") = none ∧
    extract_card_html [Node.tag "p" [Node.text "Alice argues X."],
        Node.tag "p" [Node.text "Bob claims Y."]]
        ([Card.mk "Bob" "Bob claims Y." "claims Y."] ++
          Card.mk "Alice" "Alice argues X." "zzzz" :: []) =
      extract_card_html [Node.tag "p" [Node.text "Alice argues X."],
          Node.tag "p" [Node.text "Bob claims Y."]]
        [Card.mk "Bob" "Bob claims Y." "claims Y."] ++
      extract_card_html [Node.tag "p" [Node.text "Alice argues X."],
          Node.tag "p" [Node.text "Bob claims Y."]] [] := by
  have hs : findStart (Card.mk "Alice" "Alice argues X." "zzzz").start
      (flatSibs [Node.tag "p" [Node.text "Alice argues X."],
        Node.tag "p" [Node.text "Bob claims Y."]]) = some (some 0) := by
    rw [findStart, scanFor_eq_fast]
    decide
  have hend : ∀ y ∈ (flatSibs [Node.tag "p" [Node.text "Alice argues X."],
      Node.tag "p" [Node.text "Bob claims Y."]]).drop 0,
      flexible_match (Card.mk "Alice" "Alice argues X." "zzzz").end_
        (get_text y.fst) defaultThreshold = some false := by
    have h' : ∀ y ∈ (flatSibs [Node.tag "p" [Node.text "Alice argues X."],
        Node.tag "p" [Node.text "Bob claims Y."]]).drop 0,
        fmFast "zzzz" (get_text y.fst) = some false := by decide
    intro y hy
    rw [fm_default_eq_fmFast]
    exact h' y hy
  exact claim_C6 [Node.tag "p" [Node.text "Alice argues X."],
    Node.tag "p" [Node.text "Bob claims Y."]]
    (Card.mk "Alice" "Alice argues X." "zzzz")
    [Card.mk "Bob" "Bob claims Y." "claims Y."] [] 0 hs hend

/-- Claim C7: when the sibling walk from the start element runs off the end
of the sibling chain without meeting a node equal to the end element, the
materializer terminates with the concatenation of the serialized markup of
the whole chain, and the card still yields a fragment (some result) rather
than an error. -/
theorem claim_C7 (doc : List Node) (card : Card) (i j : Nat)
    (start_elem end_elem : Node) (sibs tail : List Node)
    (hs : findStart card.start (flatSibs doc) = some (some i))
    (hx : (flatSibs doc)[i]? = some (start_elem, sibs))
    (he : findEnd card.end_ ((flatSibs doc).drop i) = some (some j))
    (hy : ((flatSibs doc).drop i)[j]? = some (end_elem, tail))
    (hnm : ∀ n ∈ sibs, nodeEq n end_elem = false) :
    materializeSpan sibs end_elem = strJoin (sibs.map render) ∧
    processCard (flatSibs doc) card =
      some { author := card.author,
             url := extract_url (strJoin (sibs.map render)),
             html_content := strJoin (sibs.map render) } := by
  have hm : materializeSpan sibs end_elem = strJoin (sibs.map render) := by
    unfold materializeSpan
    rw [takeToIncl_of_all_false (fun n hn => hnm n hn)]
  refine ⟨hm, ?_⟩
  simp only [processCard, hs, hx, he, hy, hm]

/-- Witness for claim C7: the end element lies inside the start element
(not among its siblings), the walk exhausts the two siblings, and the
produced fragment is the markup of the whole chain. -/
theorem claim_C7_witness :
    materializeSpan
        [Node.tag "p" [Node.text "ab", Node.tag "span" [Node.text "cd ef"]],
         Node.tag "p" [Node.text "gh"]]
        (Node.tag "span" [Node.text "cd ef"]) =
      strJoin ([Node.tag "p" [Node.text "ab", Node.tag "span" [Node.text "cd ef"]],
         Node.tag "p" [Node.text "gh"]].map render) ∧
    processCard
        (flatSibs [Node.tag "p" [Node.text "ab", Node.tag "span" [Node.text "cd ef"]],
          Node.tag "p" [Node.text "gh"]])
        (Card.mk "A" "abcd ef" "cd ef") =
      some { author := "A",
             url := extract_url (strJoin
               ([Node.tag "p" [Node.text "ab", Node.tag "span" [Node.text "cd ef"]],
                 Node.tag "p" [Node.text "gh"]].map render)),
             html_content := strJoin
               ([Node.tag "p" [Node.text "ab", Node.tag "span" [Node.text "cd ef"]],
                 Node.tag "p" [Node.text "gh"]].map render) } := by
  have hs : findStart (Card.mk "A" "abcd ef" "cd ef").start
      (flatSibs [Node.tag "p" [Node.text "ab", Node.tag "span" [Node.text "cd ef"]],
        Node.tag "p" [Node.text "gh"]]) = some (some 0) := by
    rw [findStart, scanFor_eq_fast]
    decide
  have he : findEnd (Card.mk "A" "abcd ef" "cd ef").end_
      ((flatSibs [Node.tag "p" [Node.text "ab", Node.tag "span" [Node.text "cd ef"]],
        Node.tag "p" [Node.text "gh"]]).drop 0) = some (some 2) := by
    rw [findEnd, scanFor_eq_fast]
    decide
  exact claim_C7
    [Node.tag "p" [Node.text "ab", Node.tag "span" [Node.text "cd ef"]],
      Node.tag "p" [Node.text "gh"]]
    (Card.mk "A" "abcd ef" "cd ef") 0 2
    (Node.tag "p" [Node.text "ab", Node.tag "span" [Node.text "cd ef"]])
    (Node.tag "span" [Node.text "cd ef"])
    [Node.tag "p" [Node.text "ab", Node.tag "span" [Node.text "cd ef"]],
      Node.tag "p" [Node.text "gh"]]
    [Node.tag "span" [Node.text "cd ef"]]
    hs rfl he rfl (by decide)

/-- Claim C8: materializing a span whose start and end anchors coincide
yields exactly the serialized markup of that single node: the walk appends
the start node, immediately recognizes it as the end node, and stops. -/
theorem claim_C8 (n : Node) (rest : List Node) :
    materializeSpan (n :: rest) n = render n := by
  unfold materializeSpan
  rw [takeToIncl, if_pos (nodeEq_refl n)]
  exact strJoin_singleton (render n)

/-- Claim C9: in the fragment cleaner, when splitting the author-bearing
element text on the literal author string yields more than two pieces, the
text is replaced by the author string followed by the concatenation of the
pieces from the third onward (general part); in particular cleaning the
document whose element text reads the author twice, as in the Alice
example, produces an element text that starts with the author string and
contains exactly one occurrence of it. -/
theorem claim_C9 :
    (∀ text author : String, ∀ parts : List String,
       pySplitStr text author = some parts → parts.length > 2 →
       dedupe_author_text text author = some (author ++ strJoin (parts.drop 2))) ∧
    clean_card_content
        (Node.tag "[document]" [Node.tag "p" [Node.text "Alice '20 Alice '20 argues X and Y"]])
        "Alice '20" =
      some (Node.tag "[document]" [Node.tag "p" [Node.text "Alice '20 argues X and Y"]]) ∧
    get_text (Node.tag "p" [Node.text "Alice '20 argues X and Y"]) =
      "Alice '20 argues X and Y" ∧
    "Alice '20".data.isPrefixOf "Alice '20 argues X and Y".data = true ∧
    countOccur "Alice '20 argues X and Y" "Alice '20" = 1 := by
  refine ⟨?_, rfl, rfl, by decide, by decide⟩
  intro text author parts hp hl
  unfold dedupe_author_text
  rw [hp]
  show (if parts.length > 2 then _ else _) = _
  rw [if_pos hl]

/-- Witness for claim C9: the general collapse rule applied to a concrete
doubled string. -/
theorem claim_C9_witness :
    dedupe_author_text "abab" "ab" = some ("ab" ++ strJoin (["", "", ""].drop 2)) :=
  claim_C9.1 "abab" "ab" ["", "", ""] (by decide) (by decide)
